import Mathlib

/-!
Shallow embedding of the wide-event aggregation and redaction engine of the
go-echo-boilerplate repository (files `internal/pkg/logger/masking.go`,
`internal/pkg/logger/context.go`, `internal/deliveries/http/middleware/logger.go`).

Modelling conventions:
* Go `interface{}` values that flow through the redaction engine are modelled by
  the inductive `GoValue`, with one constructor per dynamic type the Go code
  dispatches on (`map[string]interface{}`, `map[string]string`, `[]interface{}`,
  `[]map[string]interface{}`, `string`, `nil`, and a scalar catch-all for the
  primitive kinds that reflection returns unchanged).
* Go maps are modelled as association lists with unique keys; map iteration is
  modelled in list order (a Go map iterates in unspecified order, but all
  per-entry operations here are independent, so any order yields the same map).
* Go strings are Lean `String`s; `strings.ToLower` is modelled on the ASCII
  range, which covers every registered sensitive pattern.
* The package-global mutable slice `SensitiveFields` becomes an explicit
  `fields : List String` parameter threaded through the functions that read it.
-/

namespace GoEcho

/-- Dynamic Go values as dispatched on by `maskRecursive` in masking.go:
`vnil` is Go `nil`, `str` a `string`, `prim` any other scalar primitive
(ints, bools, floats — reflection returns these unchanged), `map` a
`map[string]interface{}`, `smap` a `map[string]string`, `arr` an
`[]interface{}`, `maparr` an `[]map[string]interface{}`. -/
inductive GoValue where
  | vnil : GoValue
  | str (s : String) : GoValue
  | prim (n : Int) : GoValue
  | map (entries : List (String × GoValue)) : GoValue
  | smap (entries : List (String × String)) : GoValue
  | arr (items : List GoValue) : GoValue
  | maparr (items : List (List (String × GoValue))) : GoValue

/-- The built-in sensitive pattern list (`SensitiveFields` in masking.go). -/
def SensitiveFields : List String :=
  [ "password", "passwd", "pwd", "secret", "token", "auth", "authorization",
    "bearer", "api_key", "apikey", "api-key", "access_token", "refresh_token",
    "id_token", "session", "session_id", "sessionid", "cookie",
    "credentials", "credential", "private_key", "privatekey", "public_key",
    "publickey", "cert", "certificate",
    "credit_card", "creditcard", "card_number", "cvv", "cvc", "ssn",
    "social_security",
    "aws_secret_access_key", "aws_access_key_id", "aws_session_token",
    "db_password", "database_password", "connection_string", "connectionstring",
    "x-api-key", "x-auth-token", "x-access-token", "x-session-id" ]

/-- ASCII lower-casing of one character, as Go's `strings.ToLower` acts on the
ASCII code points that occur in field names and patterns. -/
def goCharToLower (c : Char) : Char :=
  if 65 ≤ c.toNat ∧ c.toNat ≤ 90 then Char.ofNat (c.toNat + 32) else c

/-- `strings.ToLower` (ASCII range): maps the lower-casing over the string's
code points. -/
def goToLower (s : String) : String := ⟨s.data.map goCharToLower⟩

/-- `strings.Contains s sub`: `sub` occurs as a contiguous substring of `s`. -/
def goContains (s sub : String) : Bool := decide (sub.toList <:+: s.toList)

/-- `initSensitiveFieldsMap` (masking.go): builds the lookup map whose keys are
the lower-cased patterns.  The map is modelled by its key list; Go map key
de-duplication does not affect membership tests. -/
def initSensitiveFieldsMap (fields : List String) : List String :=
  fields.map goToLower

/-- `MaskString` (masking.go). -/
def MaskString : String := "***MASKED***"

/-- `PartialMaskPrefix` (masking.go). -/
def PartialMaskPrefix : Nat := 4

/-- `MaxMaskingDataSize` (masking.go): 1MB ceiling for redaction input. -/
def MaxMaskingDataSize : Nat := 1024 * 1024

/-- `MaxMaskingDepth` (masking.go). -/
def MaxMaskingDepth : Nat := 10

/-- `isSensitiveField` (masking.go, map-based version): exact lookup in the
lower-cased pattern map, then a substring scan over the map's keys.  The
`sync.Once` initialization plus the rebuild in `AddSensitiveField` keep the map
equal to `initSensitiveFieldsMap fields` at every call, which is how it is
modelled here. -/
def isSensitiveField (fields : List String) (fieldName : String) : Bool :=
  let sensMap := initSensitiveFieldsMap fields
  let lowerField := goToLower fieldName
  sensMap.contains lowerField ||
    sensMap.any (fun sensitive => goContains lowerField sensitive)

/-- `estimateSize` (masking.go): rough byte estimate used by the 1MB gate. -/
def estimateSize : GoValue → Nat
  | .vnil => 0
  | .str s => s.length
  | .map m => m.length * 100
  | .smap m => m.length * 50
  | .arr a => a.length * 50
  | .maparr a => a.length * 100
  | .prim _ => 8

/-- `maskValue` (masking.go): the masked representation written under a
sensitive key of a `map[string]interface{}`. -/
def maskValue : GoValue → GoValue
  | .str s =>
    if s.length > PartialMaskPrefix then
      .str (s.take PartialMaskPrefix ++ "..." ++ MaskString)
    else
      .str MaskString
  | _ => .str MaskString

/-- `maskStringMap` (masking.go): sensitive keys of a `map[string]string` are
replaced by `MaskString` wholesale (no partial prefix). -/
def maskStringMap (fields : List String) (m : List (String × String)) :
    List (String × String) :=
  m.map (fun e => if isSensitiveField fields e.1 then (e.1, MaskString) else e)

mutual

/-- `maskRecursive` (masking.go): depth-gated dispatch on the dynamic type.
Strings and other scalars fall into the reflection default, which returns them
unchanged. -/
def maskRecursive (fields : List String) (data : GoValue)
    (depth maxDepth : Nat) : GoValue :=
  if depth > maxDepth then data
  else
    match data with
    | .map m => .map (maskMap fields m depth maxDepth)
    | .smap m => .smap (maskStringMap fields m)
    | .arr s => .arr (maskSlice fields s depth maxDepth)
    | .maparr s => .maparr (maskMapSlice fields s depth maxDepth)
    | v => v

/-- `maskMap` (masking.go): per-entry masking of a `map[string]interface{}`. -/
def maskMap (fields : List String) (m : List (String × GoValue))
    (depth maxDepth : Nat) : List (String × GoValue) :=
  match m with
  | [] => []
  | (key, value) :: rest =>
    (key,
      if isSensitiveField fields key then maskValue value
      else maskRecursive fields value (depth + 1) maxDepth) ::
      maskMap fields rest depth maxDepth

/-- `maskSlice` (masking.go). -/
def maskSlice (fields : List String) (s : List GoValue)
    (depth maxDepth : Nat) : List GoValue :=
  match s with
  | [] => []
  | item :: rest =>
    maskRecursive fields item (depth + 1) maxDepth ::
      maskSlice fields rest depth maxDepth

/-- `maskMapSlice` (masking.go). -/
def maskMapSlice (fields : List String) (s : List (List (String × GoValue)))
    (depth maxDepth : Nat) : List (List (String × GoValue)) :=
  match s with
  | [] => []
  | item :: rest =>
    maskMap fields item (depth + 1) maxDepth ::
      maskMapSlice fields rest depth maxDepth

end

/-- `MaskSensitiveData` (masking.go): the 1MB size gate followed by the
depth-10 recursive walk. -/
def MaskSensitiveData (fields : List String) (data : GoValue) : GoValue :=
  if estimateSize data > MaxMaskingDataSize then
    .str "[DATA_TOO_LARGE_TO_MASK]"
  else
    maskRecursive fields data 0 MaxMaskingDepth

/-- `AddSensitiveField` (masking.go): lower-cases and appends; the internal
map is rebuilt, which in this model is reflected by `isSensitiveField`
deriving the map from the field list on every call. -/
def AddSensitiveField (fields : List String) (fieldName : String) :
    List String :=
  fields ++ [goToLower fieldName]

/-- `AddSensitiveFields` (masking.go). -/
def AddSensitiveFields (fields : List String) (fieldNames : List String) :
    List String :=
  fieldNames.foldl AddSensitiveField fields

/-- `MaskHeaders` (masking.go). -/
def MaskHeaders (fields : List String) (headers : List (String × String)) :
    List (String × String) :=
  maskStringMap fields headers

/-! ### Event accumulator (context.go) -/

/-- `UserContext` (context.go). -/
structure UserContext where
  id : String := ""
  email : String := ""
  subscription : String := ""
deriving DecidableEq

/-- `ErrorContext` (context.go).  The Go field `Type` is rendered `Typ`
because `Type` is a Lean keyword; `Details` is an optional dynamic value. -/
structure ErrorContext where
  Typ : String := ""
  Code : String := ""
  Message : String := ""
  Retriable : Bool := false
  Details : Option GoValue := none
  Stack : String := ""

/-- The Go-map write `m[k] = v` on an association list with unique keys:
overwrite in place if the key is present, append otherwise. -/
def mapInsert (m : List (String × GoValue)) (k : String) (v : GoValue) :
    List (String × GoValue) :=
  if m.any (fun e => e.1 == k) then
    m.map (fun e => if e.1 == k then (k, v) else e)
  else
    m ++ [(k, v)]

/-- The Go-map read `m[k]` (with presence flag) on an association list. -/
def mapGet (m : List (String × GoValue)) (k : String) : Option GoValue :=
  (m.find? (fun e => e.1 == k)).map (fun e => e.2)

/-- `WideEvent` (context.go).  The `sync.RWMutex` serializes every access in
the source, so the state is modelled as a plain record and each method as a
state transformer; `BusinessData` is the association-list model of the Go
map. -/
structure WideEvent where
  RequestID : String := ""
  TraceID : String := ""
  Method : String := ""
  Path : String := ""
  RemoteIP : String := ""
  UserAgent : String := ""
  BusinessData : List (String × GoValue) := []
  User : Option UserContext := none
  Error : Option ErrorContext := none

/-- `NewWideEvent` (context.go). -/
def NewWideEvent (requestID method path remoteIP userAgent : String) :
    WideEvent :=
  { RequestID := requestID, Method := method, Path := path,
    RemoteIP := remoteIP, UserAgent := userAgent, BusinessData := [] }

/-- `WideEvent.SetTraceID` (context.go). -/
def WideEvent.SetTraceID (w : WideEvent) (traceID : String) : WideEvent :=
  { w with TraceID := traceID }

/-- `WideEvent.Enrich` (context.go): unconditional `w.BusinessData[key] = value`. -/
def WideEvent.Enrich (w : WideEvent) (key : String) (value : GoValue) :
    WideEvent :=
  { w with BusinessData := mapInsert w.BusinessData key value }

/-- `WideEvent.EnrichMap` (context.go): early return on an empty map, then a
per-entry `w.BusinessData[k] = v` loop. -/
def WideEvent.EnrichMap (w : WideEvent) (data : List (String × GoValue)) :
    WideEvent :=
  if data.length = 0 then w
  else
    { w with
      BusinessData :=
        data.foldl (fun m e => mapInsert m e.1 e.2) w.BusinessData }

/-- The pair loop of `EnrichMany` (context.go): steps through the flat list two
at a time, writing only when the key position holds a string. -/
def enrichPairs (m : List (String × GoValue)) :
    List GoValue → List (String × GoValue)
  | k :: v :: rest =>
    match k with
    | .str s => enrichPairs (mapInsert m s v) rest
    | _ => enrichPairs m rest
  | _ => m

/-- The odd-length guard of `EnrichMany` (context.go): a trailing unpaired
argument is dropped. -/
def evenTrunc (keyValuePairs : List GoValue) : List GoValue :=
  if keyValuePairs.length % 2 ≠ 0 then keyValuePairs.dropLast
  else keyValuePairs

/-- `WideEvent.EnrichMany` (context.go): drops a trailing unpaired argument,
early-returns on empty, then runs the pair loop. -/
def WideEvent.EnrichMany (w : WideEvent) (keyValuePairs : List GoValue) :
    WideEvent :=
  let kvs := evenTrunc keyValuePairs
  if kvs.length = 0 then w
  else { w with BusinessData := enrichPairs w.BusinessData kvs }

/-- `WideEvent.EnrichWith` (context.go): a single map argument dispatches to
`EnrichMap` (Go's `map[string]any` and `map[string]interface{}` are one type
in the model), anything else to `EnrichMany`. -/
def WideEvent.EnrichWith (w : WideEvent) (args : List GoValue) : WideEvent :=
  if args.length = 0 then w
  else
    match args with
    | [.map m] => w.EnrichMap m
    | _ => w.EnrichMany args

/-- `WideEvent.SetUser` (context.go). -/
def WideEvent.SetUser (w : WideEvent) (user : Option UserContext) : WideEvent :=
  { w with User := user }

/-- `WideEvent.SetError` (context.go). -/
def WideEvent.SetError (w : WideEvent) (errCtx : Option ErrorContext) :
    WideEvent :=
  { w with Error := errCtx }

/-- `WideEvent.GetBusinessData` (context.go): builds a fresh map and copies
every entry into it (`data[k] = v` per entry), returning the copy rather than
the live map. -/
def WideEvent.GetBusinessData (w : WideEvent) : List (String × GoValue) :=
  w.BusinessData.foldl (fun data e => mapInsert data e.1 e.2) []

/-- `WideEvent.GetUser` (context.go). -/
def WideEvent.GetUser (w : WideEvent) : Option UserContext := w.User

/-- `WideEvent.GetError` (context.go). -/
def WideEvent.GetError (w : WideEvent) : Option ErrorContext := w.Error

/-! ### Request-scoped carrier (context.go) -/

/-- The private `contextKey` constants of context.go. -/
inductive ContextKey where
  | requestId | userId | traceId | spanId | wideEvent | errorCtx
deriving DecidableEq

/-- Values storable in a context: strings, or a reference (pointer) to a
`WideEvent` in the event store. -/
inductive CtxValue where
  | str (s : String)
  | event (e : Nat)
deriving DecidableEq

/-- `context.Context`: either the `nil` interface value, a root context, or a
`context.WithValue` derivation. -/
inductive GoContext where
  | nilCtx
  | background
  | withValue (parent : GoContext) (key : ContextKey) (val : CtxValue)

/-- `ctx.Value(key)`: nearest enclosing binding of `key`, if any. -/
def ctxValue : GoContext → ContextKey → Option CtxValue
  | .nilCtx, _ => none
  | .background, _ => none
  | .withValue parent k v, key =>
    if k = key then some v else ctxValue parent key

/-- The heap of live `WideEvent` objects; façade functions mutate the event a
context points at through this store. -/
def EventStore : Type := Nat → WideEvent

/-- Pointwise update of one event in the store. -/
def updStore (st : EventStore) (e : Nat) (f : WideEvent → WideEvent) :
    EventStore :=
  fun i => if i = e then f (st i) else st i

/-- `WithWideEvent` (context.go). -/
def WithWideEvent (ctx : GoContext) (e : Nat) : GoContext :=
  .withValue ctx .wideEvent (.event e)

/-- `GetWideEvent` (context.go): `nil` guard, then a `Value` lookup with a
`*WideEvent` type assertion; returns the reference or `none`. -/
def GetWideEvent (ctx : GoContext) : Option Nat :=
  match ctx with
  | .nilCtx => none
  | _ =>
    match ctxValue ctx .wideEvent with
    | some (.event e) => some e
    | _ => none

/-- `EnrichContext` (context.go). -/
def EnrichContext (st : EventStore) (ctx : GoContext) (key : String)
    (value : GoValue) : EventStore :=
  match GetWideEvent ctx with
  | some e => updStore st e (fun w => w.Enrich key value)
  | none => st

/-- `EnrichContextMap` (context.go). -/
def EnrichContextMap (st : EventStore) (ctx : GoContext)
    (data : List (String × GoValue)) : EventStore :=
  match GetWideEvent ctx with
  | some e => updStore st e (fun w => w.EnrichMap data)
  | none => st

/-- `EnrichContextMany` (context.go). -/
def EnrichContextMany (st : EventStore) (ctx : GoContext)
    (keyValuePairs : List GoValue) : EventStore :=
  match GetWideEvent ctx with
  | some e => updStore st e (fun w => w.EnrichMany keyValuePairs)
  | none => st

/-- `EnrichContextWith` (context.go). -/
def EnrichContextWith (st : EventStore) (ctx : GoContext)
    (args : List GoValue) : EventStore :=
  match GetWideEvent ctx with
  | some e => updStore st e (fun w => w.EnrichWith args)
  | none => st

/-- `EnrichContextSafe` (context.go): masks, then plain `EnrichContext`. -/
def EnrichContextSafe (fields : List String) (st : EventStore)
    (ctx : GoContext) (key : String) (value : GoValue) : EventStore :=
  EnrichContext st ctx key (MaskSensitiveData fields value)

/-- `EnrichContextMapSafe` (context.go): masks the whole map, then writes it
only if the result still type-asserts to a map. -/
def EnrichContextMapSafe (fields : List String) (st : EventStore)
    (ctx : GoContext) (data : List (String × GoValue)) : EventStore :=
  match MaskSensitiveData fields (.map data) with
  | .map maskedMap => EnrichContextMap st ctx maskedMap
  | _ => st

/-- The pair loop of `EnrichContextWithSafe` (context.go). -/
def withSafePairs (fields : List String) (st : EventStore) (ctx : GoContext) :
    List GoValue → EventStore
  | k :: v :: rest =>
    match k with
    | .str s => withSafePairs fields (EnrichContextSafe fields st ctx s v) ctx rest
    | _ => withSafePairs fields st ctx rest
  | _ => st

/-- `EnrichContextWithSafe` (context.go): empty guard, single-map dispatch to
`EnrichContextMapSafe`, otherwise the even-length pair loop (odd lengths write
nothing). -/
def EnrichContextWithSafe (fields : List String) (st : EventStore)
    (ctx : GoContext) (args : List GoValue) : EventStore :=
  if args.length = 0 then st
  else
    match args with
    | [.map m] => EnrichContextMapSafe fields st ctx m
    | _ =>
      if args.length % 2 = 0 then withSafePairs fields st ctx args else st

/-- `SetUserContext` (context.go). -/
def SetUserContext (st : EventStore) (ctx : GoContext)
    (user : Option UserContext) : EventStore :=
  match GetWideEvent ctx with
  | some e => updStore st e (fun w => w.SetUser user)
  | none => st

/-- `SetErrorContext` (context.go). -/
def SetErrorContext (st : EventStore) (ctx : GoContext)
    (errCtx : Option ErrorContext) : EventStore :=
  match GetWideEvent ctx with
  | some e => updStore st e (fun w => w.SetError errCtx)
  | none => st

/-! ### Emission pipeline (middleware/logger.go) -/

/-- The payload of one structured field handed to the sink
(`logger.String`/`Int`/`Int64`/`Any` in the source). -/
inductive FieldValue where
  | str (s : String)
  | int (n : Int)
  | user (u : UserContext)
  | err (e : ErrorContext)
  | goval (v : GoValue)

/-- One structured field of the emitted record. -/
def Field : Type := String × FieldValue

/-- The three sink methods `log.Error`/`log.Warn`/`log.Info`. -/
inductive LogLevel where
  | error | warn | info
deriving DecidableEq

/-- The single canonical record handed to the sink by `emitWideEvent`. -/
structure EmittedRecord where
  level : LogLevel
  msg : String
  fields : List Field

/-- `determineSeverity` (middleware/logger.go). -/
def determineSeverity (statusCode : Int) : String :=
  if statusCode ≥ 500 then "ERROR"
  else if statusCode ≥ 400 then "WARNING"
  else if statusCode ≥ 300 then "INFO"
  else "INFO"

/-- `emitWideEvent` (middleware/logger.go).  The handler's returned `error` is
modelled by `Option String` carrying `handlerErr.Error()`; the echo response
supplies `statusCode` and `bytesOut`, the middleware supplies the elapsed
milliseconds and the pre-computed `severity` string. -/
def emitWideEvent (w : WideEvent) (statusCode : Int) (bytesOut : Int)
    (durationMs : Int) (severity : String) (handlerErr : Option String) :
    EmittedRecord :=
  let errCtx0 := w.GetError
  let errCtx : Option ErrorContext :=
    match handlerErr, errCtx0 with
    | some msg, none =>
      some { Typ := "HandlerError", Message := msg, Retriable := false }
    | _, _ => errCtx0
  let outcome := if errCtx.isSome || statusCode ≥ 500 then "error" else "success"
  let fields : List Field :=
    [ ("request_id", .str w.RequestID),
      ("method", .str w.Method),
      ("path", .str w.Path),
      ("status_code", .int statusCode),
      ("duration_ms", .int durationMs),
      ("bytes_out", .int bytesOut),
      ("outcome", .str outcome),
      ("severity", .str severity),
      ("remote_ip", .str w.RemoteIP),
      ("user_agent", .str w.UserAgent) ]
    ++ (if w.TraceID ≠ "" then [("trace_id", .str w.TraceID)] else [])
    ++ (match w.GetUser with
        | some u => [("user", .user u)]
        | none => [])
    ++ (let businessData := w.GetBusinessData
        if businessData.length > 0 then
          businessData.map (fun e => (e.1, FieldValue.goval e.2))
        else [])
    ++ (match errCtx with
        | some e => [("error", .err e)]
        | none => [])
  let level : LogLevel :=
    if severity = "ERROR" then .error
    else if severity = "WARNING" then .warn
    else .info
  { level := level, msg := "Request completed", fields := fields }

/-- Read one field of an emitted record by key (first occurrence). -/
def recordField (r : EmittedRecord) (key : String) : Option FieldValue :=
  (r.fields.find? (fun f => f.1 == key)).map (fun f => f.2)

/-! ### Analysis definitions

Specification-side notions used to state the claims: which values are scalar
leaves, nested wrappers for the depth-cap claim, traces of enrichment calls
and their write sequences, and the installed-accumulator predicate. -/

/-- Scalar leaves of the redaction walk: `nil`, strings and primitives. -/
def GoValue.isScalar : GoValue → Bool
  | .vnil => true
  | .str _ => true
  | .prim _ => true
  | _ => false

/-- `n` one-entry map layers wrapped around a value, all under `key`. -/
def nestMap (key : String) : Nat → GoValue → GoValue
  | 0, v => v
  | n + 1, v => .map [(key, nestMap key n v)]

/-- One call of the enrichment API on a `WideEvent`. -/
inductive EnrichOp where
  | single (key : String) (value : GoValue)
  | batch (data : List (String × GoValue))
  | many (args : List GoValue)

/-- Run one enrichment call. -/
def applyOp (w : WideEvent) : EnrichOp → WideEvent
  | .single k v => w.Enrich k v
  | .batch d => w.EnrichMap d
  | .many a => w.EnrichMany a

/-- Run a sequence of enrichment calls. -/
def applyOps (w : WideEvent) (ops : List EnrichOp) : WideEvent :=
  ops.foldl applyOp w

/-- The key/value writes performed by a flat variadic pair list: consecutive
pairs whose key position is a string. -/
def goPairs : List GoValue → List (String × GoValue)
  | .str s :: v :: rest => (s, v) :: goPairs rest
  | _ :: _ :: rest => goPairs rest
  | _ => []

/-- The key/value writes performed by one enrichment call. -/
def opWrites : EnrichOp → List (String × GoValue)
  | .single k v => [(k, v)]
  | .batch d => d
  | .many a => goPairs (evenTrunc a)

/-- All writes of a call sequence, in order. -/
def seqWrites (ops : List EnrichOp) : List (String × GoValue) :=
  (ops.map opWrites).flatten

/-- The last value written under `k` by a write sequence, if any. -/
def lastWrite (ws : List (String × GoValue)) (k : String) : Option GoValue :=
  (ws.reverse.find? (fun e => e.1 == k)).map (fun e => e.2)

/-- The key list of a business-data association list. -/
def keys (m : List (String × GoValue)) : List String := m.map Prod.fst

/-- Whether `WithWideEvent` was ever applied on the chain with an actual
event reference. -/
def eventInstalled : GoContext → Bool
  | .nilCtx => false
  | .background => false
  | .withValue _ .wideEvent (.event _) => true
  | .withValue parent _ _ => eventInstalled parent

/-! ### Registry lemmas -/

theorem toNat_ofNat_small {n : Nat} (h : n < 55296) :
    (Char.ofNat n).toNat = n := by
  unfold Char.ofNat
  rw [dif_pos (Or.inl h)]
  rfl

theorem goCharToLower_idem (c : Char) :
    goCharToLower (goCharToLower c) = goCharToLower c := by
  unfold goCharToLower
  by_cases h : 65 ≤ c.toNat ∧ c.toNat ≤ 90
  · rw [if_pos h]
    have h32 : (Char.ofNat (c.toNat + 32)).toNat = c.toNat + 32 :=
      toNat_ofNat_small (by omega)
    rw [if_neg (by rw [h32]; omega)]
  · rw [if_neg h, if_neg h]

theorem goToLower_idem (s : String) : goToLower (goToLower s) = goToLower s := by
  show String.mk ((s.data.map goCharToLower).map goCharToLower) =
    String.mk (s.data.map goCharToLower)
  rw [List.map_map]
  exact congrArg String.mk
    (List.map_congr_left (fun a _ => goCharToLower_idem a))

/-- Characterization of `isSensitiveField`: true exactly when some registered
pattern, lower-cased, equals or occurs inside the lower-cased field name. -/
theorem isSensitiveField_spec (fields : List String) (name : String) :
    isSensitiveField fields name = true ↔
      ∃ p ∈ fields, goToLower name = goToLower p ∨
        goContains (goToLower name) (goToLower p) = true := by
  simp only [isSensitiveField, initSensitiveFieldsMap, Bool.or_eq_true,
    List.any_eq_true, List.mem_map, List.elem_iff]
  constructor
  · rintro (⟨p, hp, hple⟩ | ⟨x, ⟨p, hp, rfl⟩, hc⟩)
    · exact ⟨p, hp, Or.inl hple.symm⟩
    · exact ⟨p, hp, Or.inr hc⟩
  · rintro ⟨p, hp, h | h⟩
    · exact Or.inl ⟨p, hp, h.symm⟩
    · exact Or.inr ⟨goToLower p, ⟨p, hp, rfl⟩, h⟩

/-- Monotonicity direction used for appending one pattern. -/
theorem isSensitiveField_append (fields : List String) (x : String)
    (f : String) (h : isSensitiveField fields f = true) :
    isSensitiveField (fields ++ [x]) f = true := by
  rcases (isSensitiveField_spec fields f).mp h with ⟨p, hp, hd⟩
  exact (isSensitiveField_spec (fields ++ [x]) f).mpr
    ⟨p, List.mem_append_left _ hp, hd⟩

/-! ### Business-data map lemmas -/

theorem find?_map_replace (m : List (String × GoValue)) (k : String)
    (v : GoValue) (h : m.any (fun e => e.1 == k) = true) :
    (m.map (fun e => if e.1 == k then (k, v) else e)).find?
      (fun e => e.1 == k) = some (k, v) := by
  induction m with
  | nil => simp at h
  | cons e rest ih =>
    cases he : (e.1 == k) with
    | false =>
      simp only [List.any_cons, he, Bool.false_or] at h
      simp only [List.map_cons, he, if_false, Bool.false_eq_true]
      rw [List.find?_cons_of_neg _ (by simp [he]), ih h]
    | true =>
      simp only [List.map_cons, he, if_true]
      rw [List.find?_cons_of_pos _ (by simp)]

theorem find?_append_new (m : List (String × GoValue)) (k : String)
    (v : GoValue) (h : m.any (fun e => e.1 == k) = false) :
    (m ++ [(k, v)]).find? (fun e => e.1 == k) = some (k, v) := by
  induction m with
  | nil => simp
  | cons e rest ih =>
    simp only [List.any_cons, Bool.or_eq_false_iff] at h
    rw [List.cons_append, List.find?_cons_of_neg _ (by simp [h.1]), ih h.2]

theorem find?_map_replace_other (m : List (String × GoValue)) (k k' : String)
    (v : GoValue) (hne : k' ≠ k) :
    (m.map (fun e => if e.1 == k then (k, v) else e)).find?
      (fun e => e.1 == k') = m.find? (fun e => e.1 == k') := by
  induction m with
  | nil => rfl
  | cons e rest ih =>
    cases he : (e.1 == k) with
    | false =>
      simp only [List.map_cons, he, if_false, Bool.false_eq_true]
      cases he' : (e.1 == k') with
      | false =>
        rw [List.find?_cons_of_neg _ (by simp [he']),
          List.find?_cons_of_neg _ (by simp [he']), ih]
      | true =>
        rw [List.find?_cons_of_pos _ (by simp [he']),
          List.find?_cons_of_pos _ (by simp [he'])]
    | true =>
      have hek : e.1 = k := beq_iff_eq.mp he
      have h1 : ((k, v).1 == k') = false := by
        simp only [beq_eq_false_iff_ne]
        exact Ne.symm hne
      have h2 : (e.1 == k') = false := by
        rw [hek]
        simp only [beq_eq_false_iff_ne]
        exact Ne.symm hne
      simp only [List.map_cons, he, if_true]
      rw [List.find?_cons_of_neg _ (by simp [h1]),
        List.find?_cons_of_neg _ (by simp [h2]), ih]

/-- The Go-map write/read law: reading `k` after `m[a] = v` yields `v` when
`k = a` and the old binding otherwise. -/
theorem mapGet_mapInsert (m : List (String × GoValue)) (a : String)
    (v : GoValue) (k : String) :
    mapGet (mapInsert m a v) k =
      if (a == k) = true then some v else mapGet m k := by
  cases hak : (a == k) with
  | true =>
    have hak' : a = k := beq_iff_eq.mp hak
    subst hak'
    rw [if_pos rfl]
    unfold mapGet mapInsert
    cases ha : m.any (fun e => e.1 == a) with
    | true =>
      rw [if_pos rfl, find?_map_replace m a v ha]
      rfl
    | false =>
      rw [if_neg (by simp), find?_append_new m a v ha]
      rfl
  | false =>
    have hk : k ≠ a := fun h => by simp [h] at hak
    rw [if_neg (by simp)]
    unfold mapGet mapInsert
    cases ha : m.any (fun e => e.1 == a) with
    | true =>
      rw [if_pos rfl, find?_map_replace_other m a k v hk]
    | false =>
      rw [if_neg (by simp), List.find?_append]
      have hnone : List.find? (fun e => e.1 == k) [(a, v)] = none := by
        have hf : (a == k) = false := hak
        simp [List.find?, hf]
      rw [hnone, Option.or_none]

theorem any_key_eq_true_iff (m : List (String × GoValue)) (k : String) :
    m.any (fun e => e.1 == k) = true ↔ k ∈ keys m := by
  simp only [List.any_eq_true, keys, List.mem_map, beq_iff_eq]

theorem any_key_eq_false_iff (m : List (String × GoValue)) (k : String) :
    m.any (fun e => e.1 == k) = false ↔ k ∉ keys m := by
  rw [Bool.eq_false_iff]
  exact not_congr (any_key_eq_true_iff m k)

theorem keys_mapInsert_mem (m : List (String × GoValue)) (k : String)
    (v : GoValue) (h : m.any (fun e => e.1 == k) = true) :
    keys (mapInsert m k v) = keys m := by
  unfold mapInsert keys
  simp only [h, if_true, List.map_map]
  refine List.map_congr_left (fun e _ => ?_)
  cases he : (e.1 == k) with
  | true => simp [Function.comp, he, (beq_iff_eq.mp he).symm]
  | false => simp [Function.comp, he]

theorem keys_mapInsert_new (m : List (String × GoValue)) (k : String)
    (v : GoValue) (h : m.any (fun e => e.1 == k) = false) :
    keys (mapInsert m k v) = keys m ++ [k] := by
  unfold mapInsert keys
  simp [h]

theorem nodup_keys_mapInsert (m : List (String × GoValue)) (k : String)
    (v : GoValue) (h : (keys m).Nodup) : (keys (mapInsert m k v)).Nodup := by
  cases ha : m.any (fun e => e.1 == k) with
  | true => rw [keys_mapInsert_mem m k v ha]; exact h
  | false =>
    rw [keys_mapInsert_new m k v ha]
    have := (any_key_eq_false_iff m k).mp ha
    simp [List.nodup_append, h, this]

theorem foldl_mapInsert_fresh (m : List (String × GoValue)) :
    ∀ acc, (∀ a ∈ keys m, a ∉ keys acc) → (keys m).Nodup →
      m.foldl (fun d e => mapInsert d e.1 e.2) acc = acc ++ m := by
  induction m with
  | nil => intro acc _ _; simp
  | cons e rest ih =>
    intro acc hfresh hnodup
    have hek : e.1 ∉ keys acc := hfresh e.1 (by simp [keys])
    have hstep : mapInsert acc e.1 e.2 = acc ++ [e] := by
      unfold mapInsert
      rw [if_neg (by simp [(any_key_eq_false_iff acc e.1).mpr hek])]
    simp only [List.foldl_cons, hstep]
    have hnodup' : (keys rest).Nodup := (List.nodup_cons.mp hnodup).2
    have hknot : e.1 ∉ keys rest := (List.nodup_cons.mp hnodup).1
    have hfresh' : ∀ a ∈ keys rest, a ∉ keys (acc ++ [e]) := by
      intro a ha
      simp only [keys, List.map_append, List.mem_append, List.map_cons,
        List.map_nil, List.mem_cons, List.not_mem_nil]
      rintro (hmem | hae)
      · exact hfresh a (by simp [keys, List.mem_cons]; right; simpa [keys] using ha) hmem
      · rcases hae with hae | hf
        · exact hknot (hae ▸ ha)
        · exact hf
    rw [ih (acc ++ [e]) hfresh' hnodup']
    simp

theorem GetBusinessData_eq_self (w : WideEvent)
    (h : (keys w.BusinessData).Nodup) : w.GetBusinessData = w.BusinessData := by
  unfold WideEvent.GetBusinessData
  have := foldl_mapInsert_fresh w.BusinessData [] (by simp [keys]) h
  simpa using this

/-! ### Write-sequence lemmas -/

theorem enrichPairs_eq : ∀ (args : List GoValue) (m : List (String × GoValue)),
    enrichPairs m args =
      (goPairs args).foldl (fun d e => mapInsert d e.1 e.2) m
  | [], m => by simp [enrichPairs, goPairs]
  | [x], m => by cases x <;> simp [enrichPairs, goPairs]
  | x :: v :: rest, m => by
    cases x <;> simp only [enrichPairs, goPairs, List.foldl_cons] <;>
      exact enrichPairs_eq rest _

theorem mapGet_foldl_insert (ws : List (String × GoValue)) :
    ∀ (m : List (String × GoValue)) (k : String),
      mapGet (ws.foldl (fun d e => mapInsert d e.1 e.2) m) k =
        (lastWrite ws k).or (mapGet m k) := by
  induction ws with
  | nil => intro m k; simp [lastWrite]
  | cons e rest ih =>
    intro m k
    rw [List.foldl_cons, ih (mapInsert m e.1 e.2) k, mapGet_mapInsert]
    have hlw : lastWrite (e :: rest) k =
        (lastWrite rest k).or (if (e.1 == k) = true then some e.2 else none) := by
      unfold lastWrite
      rw [List.reverse_cons, List.find?_append]
      cases hek : (e.1 == k) with
      | true =>
        rw [if_pos rfl]
        cases List.find? (fun x => x.1 == k) rest.reverse with
        | none => simp [List.find?, hek]
        | some x => simp [List.find?, hek]
      | false =>
        rw [if_neg (by simp)]
        cases List.find? (fun x => x.1 == k) rest.reverse with
        | none => simp [List.find?, hek]
        | some x => simp [List.find?, hek]
    rw [hlw, Option.or_assoc]
    cases hek : (e.1 == k) with
    | true =>
      rw [if_pos rfl, if_pos rfl]
      rfl
    | false =>
      rw [if_neg (by simp), if_neg (by simp)]
      rfl

theorem mapGet_applyOp (w : WideEvent) (op : EnrichOp) (k : String) :
    mapGet (applyOp w op).BusinessData k =
      (lastWrite (opWrites op) k).or (mapGet w.BusinessData k) := by
  cases op with
  | single key value =>
    show mapGet (mapInsert w.BusinessData key value) k = _
    rw [mapGet_mapInsert]
    have hlw : lastWrite (opWrites (.single key value)) k =
        if (key == k) = true then some value else none := by
      unfold opWrites lastWrite
      cases hek : (key == k) with
      | true => simp [List.find?, hek]
      | false => simp [List.find?, hek]
    rw [hlw]
    cases hek : (key == k) with
    | true =>
      rw [if_pos rfl, if_pos rfl]
      rfl
    | false =>
      rw [if_neg (by simp), if_neg (by simp)]
      rfl
  | batch d =>
    show mapGet (WideEvent.EnrichMap w d).BusinessData k = _
    unfold WideEvent.EnrichMap opWrites
    by_cases hd : d.length = 0
    · rw [List.length_eq_zero] at hd
      subst hd
      simp [lastWrite]
    · rw [if_neg hd]
      exact mapGet_foldl_insert d w.BusinessData k
  | many a =>
    show mapGet (WideEvent.EnrichMany w a).BusinessData k = _
    unfold WideEvent.EnrichMany opWrites
    by_cases ha : (evenTrunc a).length = 0
    · rw [List.length_eq_zero] at ha
      simp [ha, lastWrite, goPairs]
    · simp only [if_neg ha]
      rw [enrichPairs_eq]
      exact mapGet_foldl_insert (goPairs (evenTrunc a)) w.BusinessData k

theorem lastWrite_append (a b : List (String × GoValue)) (k : String) :
    lastWrite (a ++ b) k = (lastWrite b k).or (lastWrite a k) := by
  unfold lastWrite
  rw [List.reverse_append, List.find?_append]
  cases List.find? (fun e => e.1 == k) b.reverse with
  | none => rfl
  | some x => rfl

theorem mapGet_applyOps (ops : List EnrichOp) :
    ∀ (w : WideEvent) (k : String),
      mapGet (applyOps w ops).BusinessData k =
        (lastWrite (seqWrites ops) k).or (mapGet w.BusinessData k) := by
  induction ops with
  | nil => intro w k; simp [applyOps, seqWrites, lastWrite]
  | cons op rest ih =>
    intro w k
    show mapGet (applyOps (applyOp w op) rest).BusinessData k = _
    rw [ih (applyOp w op) k, mapGet_applyOp]
    have hseq : seqWrites (op :: rest) = opWrites op ++ seqWrites rest := by
      simp [seqWrites]
    rw [hseq, lastWrite_append, Option.or_assoc]

theorem nodup_foldl_mapInsert (ws : List (String × GoValue)) :
    ∀ m, (keys m).Nodup →
      (keys (ws.foldl (fun d e => mapInsert d e.1 e.2) m)).Nodup := by
  induction ws with
  | nil => intro m h; exact h
  | cons e rest ih =>
    intro m h
    exact ih (mapInsert m e.1 e.2) (nodup_keys_mapInsert m e.1 e.2 h)

theorem nodup_applyOp (w : WideEvent) (op : EnrichOp)
    (h : (keys w.BusinessData).Nodup) :
    (keys (applyOp w op).BusinessData).Nodup := by
  cases op with
  | single key value => exact nodup_keys_mapInsert w.BusinessData key value h
  | batch d =>
    show (keys (WideEvent.EnrichMap w d).BusinessData).Nodup
    unfold WideEvent.EnrichMap
    by_cases hd : d.length = 0
    · rw [if_pos hd]; exact h
    · rw [if_neg hd]; exact nodup_foldl_mapInsert d w.BusinessData h
  | many a =>
    show (keys (WideEvent.EnrichMany w a).BusinessData).Nodup
    unfold WideEvent.EnrichMany
    by_cases ha : (evenTrunc a).length = 0
    · simp only [if_pos ha]; exact h
    · simp only [if_neg ha]
      rw [enrichPairs_eq]
      exact nodup_foldl_mapInsert (goPairs (evenTrunc a)) w.BusinessData h

theorem nodup_applyOps (ops : List EnrichOp) :
    ∀ w, (keys w.BusinessData).Nodup →
      (keys (applyOps w ops).BusinessData).Nodup := by
  induction ops with
  | nil => intro w h; exact h
  | cons op rest ih =>
    intro w h
    exact ih (applyOp w op) (nodup_applyOp w op h)

/-! ### Redaction lemmas -/

theorem maskRecursive_scalar (fields : List String) (v : GoValue)
    (hv : v.isScalar = true) (depth maxDepth : Nat) :
    maskRecursive fields v depth maxDepth = v := by
  cases v with
  | vnil => simp [maskRecursive]
  | str s => simp [maskRecursive]
  | prim n => simp [maskRecursive]
  | map m => simp [GoValue.isScalar] at hv
  | smap m => simp [GoValue.isScalar] at hv
  | arr a => simp [GoValue.isScalar] at hv
  | maparr a => simp [GoValue.isScalar] at hv

theorem maskMap_mem_sensitive (fields : List String)
    (m : List (String × GoValue)) (depth maxDepth : Nat) (k : String)
    (v : GoValue) (hmem : (k, v) ∈ m)
    (hs : isSensitiveField fields k = true) :
    (k, maskValue v) ∈ maskMap fields m depth maxDepth := by
  induction m with
  | nil => cases hmem
  | cons e rest ih =>
    obtain ⟨k', v'⟩ := e
    rw [maskMap]
    rcases List.mem_cons.mp hmem with heq | hmem'
    · obtain ⟨rfl, rfl⟩ := Prod.mk.inj heq.symm
      simp only [hs, if_true]
      exact List.mem_cons_self _ _
    · exact List.mem_cons_of_mem _ (ih hmem')

theorem maskMap_mem_plain_scalar (fields : List String)
    (m : List (String × GoValue)) (depth maxDepth : Nat) (k : String)
    (v : GoValue) (hmem : (k, v) ∈ m)
    (hs : isSensitiveField fields k = false) (hv : v.isScalar = true) :
    (k, v) ∈ maskMap fields m depth maxDepth := by
  induction m with
  | nil => cases hmem
  | cons e rest ih =>
    obtain ⟨k', v'⟩ := e
    rw [maskMap]
    rcases List.mem_cons.mp hmem with heq | hmem'
    · cases heq
      simp only [hs, Bool.false_eq_true, if_false,
        maskRecursive_scalar fields v hv]
      exact List.mem_cons_self _ _
    · exact List.mem_cons_of_mem _ (ih hmem')

theorem maskStringMap_mem_sensitive (fields : List String)
    (m : List (String × String)) (k val : String) (hmem : (k, val) ∈ m)
    (hs : isSensitiveField fields k = true) :
    (k, MaskString) ∈ maskStringMap fields m := by
  unfold maskStringMap
  exact List.mem_map.mpr ⟨(k, val), hmem, by simp [hs]⟩

theorem maskStringMap_mem_plain (fields : List String)
    (m : List (String × String)) (k val : String) (hmem : (k, val) ∈ m)
    (hs : isSensitiveField fields k = false) :
    (k, val) ∈ maskStringMap fields m := by
  unfold maskStringMap
  exact List.mem_map.mpr ⟨(k, val), hmem, by simp [hs]⟩

theorem maskValue_str_long (s : String) (h : 4 < s.length) :
    maskValue (.str s) = .str (s.take 4 ++ "..." ++ "***MASKED***") := by
  show (if s.length > PartialMaskPrefix then
      GoValue.str (s.take PartialMaskPrefix ++ "..." ++ MaskString)
    else GoValue.str MaskString) = _
  rw [if_pos (show s.length > PartialMaskPrefix from h)]
  rfl

theorem maskValue_str_short (s : String) (h : s.length ≤ 4) :
    maskValue (.str s) = .str "***MASKED***" := by
  show (if s.length > PartialMaskPrefix then
      GoValue.str (s.take PartialMaskPrefix ++ "..." ++ MaskString)
    else GoValue.str MaskString) = _
  rw [if_neg (by unfold PartialMaskPrefix; omega)]
  rfl

theorem maskValue_nonstr (v : GoValue) (h : ∀ s, v ≠ .str s) :
    maskValue v = .str "***MASKED***" := by
  cases v with
  | str s => exact absurd rfl (h s)
  | vnil => rfl
  | prim n => rfl
  | map m => rfl
  | smap m => rfl
  | arr a => rfl
  | maparr a => rfl

theorem maskRecursive_nestMap (fields : List String) (key : String)
    (hk : isSensitiveField fields key = false) :
    ∀ (n d : Nat) (v : GoValue), d + n ≤ MaxMaskingDepth + 1 →
      maskRecursive fields (nestMap key n v) d MaxMaskingDepth =
        nestMap key n (maskRecursive fields v (d + n) MaxMaskingDepth) := by
  intro n
  induction n with
  | zero => intro d v _; rfl
  | succ n ih =>
    intro d v hd
    have hdle : ¬ d > MaxMaskingDepth := by
      unfold MaxMaskingDepth at hd ⊢
      omega
    rw [nestMap, maskRecursive, if_neg hdle]
    show GoValue.map (maskMap fields [(key, nestMap key n v)] d MaxMaskingDepth) = _
    rw [maskMap, maskMap]
    simp only [hk, Bool.false_eq_true, if_false]
    rw [ih (d + 1) v (by omega)]
    rw [nestMap]
    have harith : d + 1 + n = d + (n + 1) := by omega
    rw [harith]

/-! ### Carrier lemmas -/

theorem ctxValue_no_event : ∀ (ctx : GoContext),
    eventInstalled ctx = false →
      ∀ e, ctxValue ctx .wideEvent ≠ some (.event e) := by
  intro ctx
  induction ctx with
  | nilCtx => intro _ e hc; simp [ctxValue] at hc
  | background => intro _ e hc; simp [ctxValue] at hc
  | withValue parent key v ih =>
    intro h e hc
    cases key with
    | wideEvent =>
      cases v with
      | event i => simp [eventInstalled] at h
      | str s =>
        rw [ctxValue, if_pos rfl] at hc
        simp at hc
    | requestId =>
      rw [ctxValue, if_neg (by simp)] at hc
      exact ih (by simpa [eventInstalled] using h) e hc
    | userId =>
      rw [ctxValue, if_neg (by simp)] at hc
      exact ih (by simpa [eventInstalled] using h) e hc
    | traceId =>
      rw [ctxValue, if_neg (by simp)] at hc
      exact ih (by simpa [eventInstalled] using h) e hc
    | spanId =>
      rw [ctxValue, if_neg (by simp)] at hc
      exact ih (by simpa [eventInstalled] using h) e hc
    | errorCtx =>
      rw [ctxValue, if_neg (by simp)] at hc
      exact ih (by simpa [eventInstalled] using h) e hc

theorem GetWideEvent_none (ctx : GoContext)
    (h : eventInstalled ctx = false) : GetWideEvent ctx = none := by
  cases ctx with
  | nilCtx => rfl
  | background => rfl
  | withValue parent key v =>
    show (match ctxValue (.withValue parent key v) .wideEvent with
      | some (.event e) => some e
      | _ => none) = none
    cases hcv : ctxValue (.withValue parent key v) .wideEvent with
    | none => rfl
    | some cv =>
      cases cv with
      | str s => rfl
      | event e => exact absurd hcv (ctxValue_no_event _ h e)

theorem withSafePairs_noop (fields : List String) (ctx : GoContext)
    (h : GetWideEvent ctx = none) :
    ∀ (args : List GoValue) (st : EventStore),
      withSafePairs fields st ctx args = st
  | [], st => rfl
  | [_], st => rfl
  | k :: v :: rest, st => by
    cases k with
    | str s =>
      show withSafePairs fields (EnrichContextSafe fields st ctx s v) ctx rest = st
      have hstep : EnrichContextSafe fields st ctx s v = st := by
        unfold EnrichContextSafe EnrichContext
        rw [h]
      rw [hstep]
      exact withSafePairs_noop fields ctx h rest st
    | vnil => exact withSafePairs_noop fields ctx h rest st
    | prim n => exact withSafePairs_noop fields ctx h rest st
    | map m => exact withSafePairs_noop fields ctx h rest st
    | smap m => exact withSafePairs_noop fields ctx h rest st
    | arr a => exact withSafePairs_noop fields ctx h rest st
    | maparr a => exact withSafePairs_noop fields ctx h rest st

theorem EnrichContextMapSafe_noop (fields : List String) (ctx : GoContext)
    (h : GetWideEvent ctx = none) (st : EventStore)
    (data : List (String × GoValue)) :
    EnrichContextMapSafe fields st ctx data = st := by
  unfold EnrichContextMapSafe
  cases MaskSensitiveData fields (.map data) with
  | map mm => unfold EnrichContextMap; rw [h]
  | vnil => rfl
  | str s => rfl
  | prim n => rfl
  | smap m => rfl
  | arr a => rfl
  | maparr a => rfl

theorem EnrichContextWithSafe_noop (fields : List String) (ctx : GoContext)
    (h : GetWideEvent ctx = none) (st : EventStore) (args : List GoValue) :
    EnrichContextWithSafe fields st ctx args = st := by
  unfold EnrichContextWithSafe
  by_cases ha : args.length = 0
  · rw [if_pos ha]
  · rw [if_neg ha]
    split
    · exact EnrichContextMapSafe_noop fields ctx h st _
    · split
      · exact withSafePairs_noop fields ctx h _ st
      · rfl

/-! ## Claim theorems -/

/-- Claim C7: for every field name, `isSensitiveField` returns true if and
only if the lower-cased field name exactly matches, or contains as a
substring, some pattern of the registered sensitive-pattern set (patterns are
compared lower-cased); the field name is lower-cased first, so the check is
case-insensitive in it. -/
theorem C7_isSensitive_iff (fields : List String) (name : String) :
    isSensitiveField fields name = true ↔
      ∃ p ∈ fields, goToLower name = goToLower p ∨
        goContains (goToLower name) (goToLower p) = true :=
  isSensitiveField_spec fields name

/-- Claim C9: registering a pattern is monotone — after
`AddSensitiveField fields name` (which lower-cases and appends `name`), the
name itself is judged sensitive, and every field name judged sensitive before
still is; the pattern set only grows. -/
theorem C9_register_monotone (fields : List String) (name : String) :
    isSensitiveField (AddSensitiveField fields name) name = true ∧
    (∀ f, isSensitiveField fields f = true →
      isSensitiveField (AddSensitiveField fields name) f = true) := by
  refine ⟨?_, ?_⟩
  · refine (isSensitiveField_spec _ _).mpr
      ⟨goToLower name, ?_, Or.inl (goToLower_idem name).symm⟩
    simp [AddSensitiveField]
  · intro f hf
    exact isSensitiveField_append fields (goToLower name) f hf

/-- Witness for C9: registering `Internal_Token` over the built-in list makes
it sensitive and keeps `user_password` sensitive. -/
theorem C9_register_monotone_witness :
    isSensitiveField SensitiveFields "user_password" = true ∧
    isSensitiveField (AddSensitiveField SensitiveFields "Internal_Token")
      "Internal_Token" = true ∧
    isSensitiveField (AddSensitiveField SensitiveFields "Internal_Token")
      "user_password" = true :=
  ⟨by decide,
   (C9_register_monotone SensitiveFields "Internal_Token").1,
   (C9_register_monotone SensitiveFields "Internal_Token").2
     "user_password" (by decide)⟩

/-- Claim C2 counterexample: for the `map[string]string` form of redaction,
a sensitive value longer than 4 characters is replaced by the fixed marker
wholesale, not by its first 4 characters plus the marker as the claim states
for every mapping-like input. -/
theorem C2_counterexample :
    MaskSensitiveData SensitiveFields
        (.smap [("password", "abcdefgh")]) =
      .smap [("password", "***MASKED***")] ∧
    "***MASKED***" ≠ "abcd" ++ "..." ++ "***MASKED***" := by
  constructor
  · rfl
  · decide

/-- Claim C2 (amended): on `map[string]interface{}` inputs within the size
ceiling, a sensitive key's value is replaced by the masked representation —
strings longer than 4 characters keep their first 4 characters followed by
the fixed marker, strings of length ≤ 4 and all non-strings become the marker
only — and non-sensitive scalar leaves are kept unchanged; on
`map[string]string` inputs, a sensitive key's value becomes the fixed marker
only (no partial prefix) and non-sensitive values are unchanged. -/
theorem C2_masking_amended (fields : List String) :
    (∀ s : String, 4 < s.length →
      maskValue (.str s) = .str (s.take 4 ++ "..." ++ "***MASKED***")) ∧
    (∀ s : String, s.length ≤ 4 → maskValue (.str s) = .str "***MASKED***") ∧
    (∀ v : GoValue, (∀ s, v ≠ .str s) → maskValue v = .str "***MASKED***") ∧
    (∀ (m : List (String × GoValue)) (k : String) (v : GoValue),
      estimateSize (.map m) ≤ MaxMaskingDataSize → (k, v) ∈ m →
      isSensitiveField fields k = true →
      ∃ m', MaskSensitiveData fields (.map m) = .map m' ∧
        (k, maskValue v) ∈ m') ∧
    (∀ (m : List (String × GoValue)) (k : String) (v : GoValue),
      estimateSize (.map m) ≤ MaxMaskingDataSize → (k, v) ∈ m →
      isSensitiveField fields k = false → v.isScalar = true →
      ∃ m', MaskSensitiveData fields (.map m) = .map m' ∧ (k, v) ∈ m') ∧
    (∀ (sm : List (String × String)) (k val : String),
      estimateSize (.smap sm) ≤ MaxMaskingDataSize → (k, val) ∈ sm →
      (isSensitiveField fields k = true →
        ∃ sm', MaskSensitiveData fields (.smap sm) = .smap sm' ∧
          (k, "***MASKED***") ∈ sm') ∧
      (isSensitiveField fields k = false →
        ∃ sm', MaskSensitiveData fields (.smap sm) = .smap sm' ∧
          (k, val) ∈ sm')) := by
  refine ⟨maskValue_str_long, maskValue_str_short, maskValue_nonstr,
    ?_, ?_, ?_⟩
  · intro m k v hsize hmem hs
    refine ⟨maskMap fields m 0 MaxMaskingDepth, ?_, ?_⟩
    · unfold MaskSensitiveData
      rw [if_neg (by omega), maskRecursive, if_neg (by unfold MaxMaskingDepth; omega)]
    · exact maskMap_mem_sensitive fields m 0 MaxMaskingDepth k v hmem hs
  · intro m k v hsize hmem hs hv
    refine ⟨maskMap fields m 0 MaxMaskingDepth, ?_, ?_⟩
    · unfold MaskSensitiveData
      rw [if_neg (by omega), maskRecursive, if_neg (by unfold MaxMaskingDepth; omega)]
    · exact maskMap_mem_plain_scalar fields m 0 MaxMaskingDepth k v hmem hs hv
  · intro sm k val hsize hmem
    have hmask : MaskSensitiveData fields (.smap sm) =
        .smap (maskStringMap fields sm) := by
      unfold MaskSensitiveData
      rw [if_neg (by omega), maskRecursive, if_neg (by unfold MaxMaskingDepth; omega)]
    exact ⟨fun hs => ⟨maskStringMap fields sm, hmask,
        maskStringMap_mem_sensitive fields sm k val hmem hs⟩,
      fun hs => ⟨maskStringMap fields sm, hmask,
        maskStringMap_mem_plain fields sm k val hmem hs⟩⟩

/-- Witness for C2 (amended): the spec's own redaction examples. -/
theorem C2_masking_amended_witness :
    (4 < ("abcdefgh" : String).length ∧
      maskValue (.str "abcdefgh") =
        .str (("abcdefgh" : String).take 4 ++ "..." ++ "***MASKED***")) ∧
    (("ab" : String).length ≤ 4 ∧
      maskValue (.str "ab") = .str "***MASKED***") ∧
    (estimateSize (.map [("password", .str "abcdefgh")]) ≤ MaxMaskingDataSize ∧
      isSensitiveField SensitiveFields "password" = true ∧
      ∃ m', MaskSensitiveData SensitiveFields
          (.map [("password", .str "abcdefgh")]) = .map m' ∧
        ("password", maskValue (.str "abcdefgh")) ∈ m') ∧
    (isSensitiveField SensitiveFields "email" = false ∧
      ∃ m', MaskSensitiveData SensitiveFields
          (.map [("email", .str "a@b.com")]) = .map m' ∧
        ("email", GoValue.str "a@b.com") ∈ m') :=
  ⟨⟨by decide, (C2_masking_amended SensitiveFields).1 "abcdefgh" (by decide)⟩,
   ⟨by decide, (C2_masking_amended SensitiveFields).2.1 "ab" (by decide)⟩,
   ⟨by decide, by decide,
    (C2_masking_amended SensitiveFields).2.2.2.1
      [("password", .str "abcdefgh")] "password" (.str "abcdefgh")
      (by decide) (by simp) (by decide)⟩,
   ⟨by decide,
    (C2_masking_amended SensitiveFields).2.2.2.2.1
      [("email", .str "a@b.com")] "email" (.str "a@b.com")
      (by decide) (by simp) (by decide) (by decide)⟩⟩

/-- Claim C5: redaction recursion depth is capped at the default of 10: any
substructure reached at depth beyond the cap is returned exactly as-is
(unredacted, even if it contains sensitive keys), while a value nested within
the cap is recursed into normally. -/
theorem C5_depth_cap (fields : List String) (key : String)
    (hk : isSensitiveField fields key = false) :
    (∀ (v : GoValue) (d : Nat), MaxMaskingDepth < d →
      maskRecursive fields v d MaxMaskingDepth = v) ∧
    (∀ v : GoValue, MaskSensitiveData fields (nestMap key 11 v) =
      nestMap key 11 v) ∧
    (∀ (v : GoValue) (n : Nat), 1 ≤ n → n ≤ 11 →
      MaskSensitiveData fields (nestMap key n v) =
        nestMap key n (maskRecursive fields v n MaxMaskingDepth)) := by
  have h1 : ∀ (v : GoValue) (d : Nat), MaxMaskingDepth < d →
      maskRecursive fields v d MaxMaskingDepth = v := by
    intro v d hd
    rw [maskRecursive.eq_def, if_pos hd]
  have h3 : ∀ (v : GoValue) (n : Nat), 1 ≤ n → n ≤ 11 →
      MaskSensitiveData fields (nestMap key n v) =
        nestMap key n (maskRecursive fields v n MaxMaskingDepth) := by
    intro v n hn1 hn11
    obtain ⟨m, rfl⟩ : ∃ m, n = m + 1 := ⟨n - 1, by omega⟩
    unfold MaskSensitiveData
    rw [if_neg (by rw [nestMap]; simp [estimateSize, MaxMaskingDataSize])]
    have := maskRecursive_nestMap fields key hk (m + 1) 0 v
      (by unfold MaxMaskingDepth; omega)
    rw [Nat.zero_add] at this
    exact this
  refine ⟨h1, ?_, h3⟩
  intro v
  rw [h3 v 11 (by omega) (by omega),
    h1 v 11 (by unfold MaxMaskingDepth; omega)]

/-- Witness for C5: eleven layers of non-sensitive map nesting are returned
untouched, leaving an inner password unmasked. -/
theorem C5_depth_cap_witness :
    isSensitiveField SensitiveFields "data" = false ∧
    MaskSensitiveData SensitiveFields
        (nestMap "data" 11 (.map [("password", .str "secret123")])) =
      nestMap "data" 11 (.map [("password", .str "secret123")]) :=
  ⟨by decide,
   (C5_depth_cap SensitiveFields "data" (by decide)).2.1
     (.map [("password", .str "secret123")])⟩

/-- Claim C6: on a carrier context where no accumulator was installed
(including the nil context), `GetWideEvent` returns `none` rather than an
error or panic, and every enrichment-façade call against such a context
leaves the event store untouched. -/
theorem C6_absent_noop (ctx : GoContext) (h : eventInstalled ctx = false)
    (st : EventStore) (fields : List String) (key : String) (value : GoValue)
    (data : List (String × GoValue)) (args : List GoValue)
    (user : Option UserContext) (errCtx : Option ErrorContext) :
    GetWideEvent ctx = none ∧
    EnrichContext st ctx key value = st ∧
    EnrichContextMap st ctx data = st ∧
    EnrichContextMany st ctx args = st ∧
    EnrichContextWith st ctx args = st ∧
    EnrichContextSafe fields st ctx key value = st ∧
    EnrichContextMapSafe fields st ctx data = st ∧
    EnrichContextWithSafe fields st ctx args = st ∧
    SetUserContext st ctx user = st ∧
    SetErrorContext st ctx errCtx = st := by
  have hg : GetWideEvent ctx = none := GetWideEvent_none ctx h
  refine ⟨hg, ?_, ?_, ?_, ?_, ?_, ?_, ?_, ?_, ?_⟩
  · unfold EnrichContext
    rw [hg]
  · unfold EnrichContextMap
    rw [hg]
  · unfold EnrichContextMany
    rw [hg]
  · unfold EnrichContextWith
    rw [hg]
  · unfold EnrichContextSafe EnrichContext
    rw [hg]
  · exact EnrichContextMapSafe_noop fields ctx hg st data
  · exact EnrichContextWithSafe_noop fields ctx hg st args
  · unfold SetUserContext
    rw [hg]
  · unfold SetErrorContext
    rw [hg]

/-- Witness for C6: a context carrying only a request id (no installed
accumulator) and the nil context both yield an absent lookup, and an
enrichment against the former is a no-op. -/
theorem C6_absent_noop_witness :
    eventInstalled (.withValue .background .requestId (.str "r-1")) = false ∧
    GetWideEvent (.withValue .background .requestId (.str "r-1")) = none ∧
    EnrichContext (fun _ => NewWideEvent "" "" "" "" "")
        (.withValue .background .requestId (.str "r-1")) "order_id"
        (.str "o-1") =
      (fun _ => NewWideEvent "" "" "" "" "") ∧
    eventInstalled .nilCtx = false ∧
    GetWideEvent .nilCtx = none :=
  ⟨by decide,
   (C6_absent_noop (.withValue .background .requestId (.str "r-1")) (by decide)
     (fun _ => NewWideEvent "" "" "" "" "") SensitiveFields "order_id"
     (.str "o-1") [] [] none none).1,
   (C6_absent_noop (.withValue .background .requestId (.str "r-1")) (by decide)
     (fun _ => NewWideEvent "" "" "" "" "") SensitiveFields "order_id"
     (.str "o-1") [] [] none none).2.1,
   by decide,
   (C6_absent_noop .nilCtx (by decide)
     (fun _ => NewWideEvent "" "" "" "" "") SensitiveFields "order_id"
     (.str "o-1") [] [] none none).1⟩

/-- Claim C10: when a map's estimated size exceeds the masking ceiling,
`EnrichContextMapSafe` writes nothing at all — the "too large" placeholder is
a string, its map type assertion fails, and the event store is returned
completely unchanged. -/
theorem C10_oversized_map_noop (fields : List String) (st : EventStore)
    (ctx : GoContext) (data : List (String × GoValue))
    (h : estimateSize (.map data) > MaxMaskingDataSize) :
    EnrichContextMapSafe fields st ctx data = st := by
  unfold EnrichContextMapSafe MaskSensitiveData
  rw [if_pos h]

/-- Witness for C10: a 10486-entry map (estimated 1048600 bytes) enriched
against a live store leaves the store unchanged. -/
theorem C10_oversized_map_noop_witness :
    estimateSize
        (.map ((List.range 10486).map (fun i => (Nat.repr i, GoValue.vnil)))) >
      MaxMaskingDataSize ∧
    EnrichContextMapSafe SensitiveFields (fun _ => NewWideEvent "" "" "" "" "")
        (WithWideEvent .background 0)
        ((List.range 10486).map (fun i => (Nat.repr i, GoValue.vnil))) =
      (fun _ => NewWideEvent "" "" "" "" "") := by
  have h : estimateSize
      (.map ((List.range 10486).map (fun i => (Nat.repr i, GoValue.vnil)))) >
        MaxMaskingDataSize := by
    show ((List.range 10486).map (fun i => (Nat.repr i, GoValue.vnil))).length
      * 100 > MaxMaskingDataSize
    rw [List.length_map, List.length_range]
    decide
  exact ⟨h, C10_oversized_map_noop SensitiveFields _ _ _ h⟩

/-- Claim C4: `MaskSensitiveData` replaces any input whose estimated size
exceeds the 1MB ceiling by the single "too large" placeholder, and proceeds
with the depth-bounded recursive redaction for any input at or below the
ceiling. -/
theorem C4_size_gate (fields : List String) (v : GoValue) :
    (estimateSize v > MaxMaskingDataSize →
      MaskSensitiveData fields v = .str "[DATA_TOO_LARGE_TO_MASK]") ∧
    (estimateSize v ≤ MaxMaskingDataSize →
      MaskSensitiveData fields v = maskRecursive fields v 0 MaxMaskingDepth) := by
  constructor
  · intro h
    unfold MaskSensitiveData
    rw [if_pos h]
  · intro h
    unfold MaskSensitiveData
    rw [if_neg (by omega)]

/-- Witness for C4: a 1048577-character string is replaced by the placeholder;
a one-entry map is redacted recursively (its password masked). -/
theorem C4_size_gate_witness :
    (estimateSize (.str ⟨List.replicate 1048577 'a'⟩) > MaxMaskingDataSize ∧
      MaskSensitiveData SensitiveFields (.str ⟨List.replicate 1048577 'a'⟩) =
        .str "[DATA_TOO_LARGE_TO_MASK]") ∧
    (estimateSize (.map [("password", .str "secret123")]) ≤ MaxMaskingDataSize ∧
      MaskSensitiveData SensitiveFields (.map [("password", .str "secret123")]) =
        maskRecursive SensitiveFields (.map [("password", .str "secret123")])
          0 MaxMaskingDepth) := by
  have hbig : estimateSize (.str ⟨List.replicate 1048577 'a'⟩) >
      MaxMaskingDataSize := by
    show (String.mk (List.replicate 1048577 'a')).length > MaxMaskingDataSize
    rw [show (String.mk (List.replicate 1048577 'a')).length =
      (List.replicate 1048577 'a').length from rfl, List.length_replicate]
    decide
  have hsmall : estimateSize (.map [("password", .str "secret123")]) ≤
      MaxMaskingDataSize := by decide
  exact ⟨⟨hbig, (C4_size_gate SensitiveFields _).1 hbig⟩,
    ⟨hsmall, (C4_size_gate SensitiveFields _).2 hsmall⟩⟩

set_option maxRecDepth 10000 in
/-- Claim C1 counterexample: 101 `Enrich` calls with pairwise-distinct keys
leave 101 distinct keys in `businessData` — no `MaxEntries` cap of 100
exists, and the 101st insert is not dropped. -/
theorem C1_counterexample :
    (applyOps (NewWideEvent "r" "GET" "/p" "ip" "ua")
        ((List.range 101).map
          (fun i => EnrichOp.single ("k" ++ Nat.repr i) GoValue.vnil))
      ).BusinessData.length = 101 ∧
    ((applyOps (NewWideEvent "r" "GET" "/p" "ip" "ua")
        ((List.range 101).map
          (fun i => EnrichOp.single ("k" ++ Nat.repr i) GoValue.vnil))
      ).BusinessData.map Prod.fst).Nodup := by
  constructor
  · decide
  · decide

/-- Claim C1 (amended): `businessData` is not capacity-bounded — inserting a
new key always succeeds regardless of how many distinct keys are present, an
update to an already-present key always succeeds, and no write is ever
dropped (all other bindings are preserved). -/
theorem C1_no_capacity_bound (w : WideEvent) (k : String) (v : GoValue) :
    mapGet (w.Enrich k v).BusinessData k = some v ∧
    (∀ k', k' ≠ k →
      mapGet (w.Enrich k v).BusinessData k' = mapGet w.BusinessData k') := by
  constructor
  · show mapGet (mapInsert w.BusinessData k v) k = some v
    rw [mapGet_mapInsert, if_pos (beq_self_eq_true k)]
  · intro k' hk
    show mapGet (mapInsert w.BusinessData k v) k' = mapGet w.BusinessData k'
    rw [mapGet_mapInsert,
      if_neg (by simp only [beq_iff_eq]; exact fun h => hk h.symm)]

/-- Witness for C1 (amended): an insert is visible and an unrelated key is
untouched. -/
theorem C1_no_capacity_bound_witness :
    ("other" : String) ≠ "order_id" ∧
    mapGet ((NewWideEvent "" "" "" "" "").Enrich "order_id"
      (.str "o1")).BusinessData "order_id" = some (.str "o1") ∧
    mapGet ((NewWideEvent "" "" "" "" "").Enrich "order_id"
      (.str "o1")).BusinessData "other" =
      mapGet (NewWideEvent "" "" "" "" "").BusinessData "other" :=
  ⟨by decide,
   (C1_no_capacity_bound (NewWideEvent "" "" "" "" "") "order_id"
     (.str "o1")).1,
   (C1_no_capacity_bound (NewWideEvent "" "" "" "" "") "order_id"
     (.str "o1")).2 "other" (by decide)⟩

/-- Claim C8: after any sequence of `Enrich`/`EnrichMap`/`EnrichMany` calls
(with at most 100 distinct keys) on a fresh event, `GetBusinessData` returns
a map binding exactly the written keys to their last-written values, and the
returned map is a fresh copy whose contents coincide with the live map. -/
theorem C8_snapshot_exact (rid mth pth ip ua : String) (ops : List EnrichOp)
    (hcount : ((seqWrites ops).map Prod.fst).dedup.length ≤ 100) :
    (∀ k, mapGet
        (applyOps (NewWideEvent rid mth pth ip ua) ops).GetBusinessData k =
      lastWrite (seqWrites ops) k) ∧
    (applyOps (NewWideEvent rid mth pth ip ua) ops).GetBusinessData =
      (applyOps (NewWideEvent rid mth pth ip ua) ops).BusinessData := by
  have hnodup :
      (keys (applyOps (NewWideEvent rid mth pth ip ua) ops).BusinessData).Nodup := by
    apply nodup_applyOps
    simp [NewWideEvent, keys]
  have hcopy := GetBusinessData_eq_self _ hnodup
  refine ⟨?_, hcopy⟩
  intro k
  rw [hcopy, mapGet_applyOps]
  have hempty : mapGet (NewWideEvent rid mth pth ip ua).BusinessData k = none := rfl
  rw [hempty, Option.or_none]

/-- Witness for C8: a four-call sequence over three distinct keys; the
snapshot returns the last-written value of the twice-written key. -/
theorem C8_snapshot_exact_witness :
    ((seqWrites [EnrichOp.single "order_id" (.str "o1"),
        EnrichOp.batch [("payment_method", .str "stripe")],
        EnrichOp.single "order_id" (.str "o2"),
        EnrichOp.many [.str "cart_total", .prim 15999]]).map
      Prod.fst).dedup.length ≤ 100 ∧
    mapGet (applyOps (NewWideEvent "r" "GET" "/p" "ip" "ua")
        [EnrichOp.single "order_id" (.str "o1"),
         EnrichOp.batch [("payment_method", .str "stripe")],
         EnrichOp.single "order_id" (.str "o2"),
         EnrichOp.many [.str "cart_total", .prim 15999]]).GetBusinessData
      "order_id" =
      lastWrite (seqWrites [EnrichOp.single "order_id" (.str "o1"),
        EnrichOp.batch [("payment_method", .str "stripe")],
        EnrichOp.single "order_id" (.str "o2"),
        EnrichOp.many [.str "cart_total", .prim 15999]]) "order_id" ∧
    lastWrite (seqWrites [EnrichOp.single "order_id" (.str "o1"),
        EnrichOp.batch [("payment_method", .str "stripe")],
        EnrichOp.single "order_id" (.str "o2"),
        EnrichOp.many [.str "cart_total", .prim 15999]]) "order_id" =
      some (.str "o2") :=
  ⟨by decide,
   (C8_snapshot_exact "r" "GET" "/p" "ip" "ua"
     [EnrichOp.single "order_id" (.str "o1"),
      EnrichOp.batch [("payment_method", .str "stripe")],
      EnrichOp.single "order_id" (.str "o2"),
      EnrichOp.many [.str "cart_total", .prim 15999]] (by decide)).1
     "order_id",
   rfl⟩

/-- Claim C3 counterexample: at status 503 with no explicit error descriptor,
emission synthesizes a descriptor only when the handler returned a fault —
with no fault the record carries no error descriptor at all (though outcome
is still "error") — and when the fault's message is empty the synthesized
message is empty as well. -/
theorem C3_counterexample :
    recordField (emitWideEvent (NewWideEvent "r" "GET" "/p" "ip" "ua") 503 0 5
        (determineSeverity 503) none) "error" = none ∧
    recordField (emitWideEvent (NewWideEvent "r" "GET" "/p" "ip" "ua") 503 0 5
        (determineSeverity 503) none) "outcome" = some (.str "error") ∧
    recordField (emitWideEvent (NewWideEvent "r" "GET" "/p" "ip" "ua") 503 0 5
        (determineSeverity 503) (some "")) "error" =
      some (.err { Typ := "HandlerError", Message := "", Retriable := false }) := by
  refine ⟨rfl, rfl, rfl⟩

/-- Claim C3 (amended): when the handler returned a fault and no error
descriptor was explicitly set, emission synthesizes a `HandlerError`
descriptor whose message equals the fault's message (so it is non-empty
whenever the fault's message is), and at status 503 the record has outcome
"error", severity "ERROR", and is emitted at error level. -/
theorem C3_synthesized_error (w : WideEvent) (bytesOut durationMs : Int)
    (msg : String) (hno : w.Error = none) :
    (("error", FieldValue.err
        { Typ := "HandlerError", Message := msg, Retriable := false }) ∈
      (emitWideEvent w 503 bytesOut durationMs (determineSeverity 503)
        (some msg)).fields) ∧
    recordField (emitWideEvent w 503 bytesOut durationMs
        (determineSeverity 503) (some msg)) "outcome" =
      some (.str "error") ∧
    recordField (emitWideEvent w 503 bytesOut durationMs
        (determineSeverity 503) (some msg)) "severity" =
      some (.str "ERROR") ∧
    (emitWideEvent w 503 bytesOut durationMs (determineSeverity 503)
      (some msg)).level = .error := by
  have hsev : determineSeverity 503 = "ERROR" := by decide
  refine ⟨?_, ?_, ?_, ?_⟩
  · simp only [emitWideEvent, WideEvent.GetError, hno]
    simp [List.mem_append]
  · simp only [recordField, emitWideEvent, WideEvent.GetError, hno,
      List.cons_append, List.nil_append]
    simp [List.find?]
  · simp only [recordField, emitWideEvent, WideEvent.GetError, hno, hsev,
      List.cons_append, List.nil_append]
    simp [List.find?]
  · simp only [emitWideEvent, hsev]
    simp

/-- Witness for C3 (amended): a concrete 503 emission with fault message
`boom` and no explicit descriptor. -/
theorem C3_synthesized_error_witness :
    (NewWideEvent "r" "GET" "/p" "ip" "ua").Error = none ∧
    ("boom" : String) ≠ "" ∧
    (("error", FieldValue.err
        { Typ := "HandlerError", Message := "boom", Retriable := false }) ∈
      (emitWideEvent (NewWideEvent "r" "GET" "/p" "ip" "ua") 503 0 5
        (determineSeverity 503) (some "boom")).fields) ∧
    (emitWideEvent (NewWideEvent "r" "GET" "/p" "ip" "ua") 503 0 5
      (determineSeverity 503) (some "boom")).level = .error :=
  ⟨rfl, by decide,
   (C3_synthesized_error (NewWideEvent "r" "GET" "/p" "ip" "ua") 0 5 "boom"
     rfl).1,
   (C3_synthesized_error (NewWideEvent "r" "GET" "/p" "ip" "ua") 0 5 "boom"
     rfl).2.2.2⟩

end GoEcho
